import Mathlib

/-!
Shallow embedding of the link-intelligence code of the activity-stream
Chrome extension (src/addon-chrome/ChromePlacesProvider.js,
src/addon-chrome/ChromePreviewProvider.js revision src/unnamed/part_001),
together with theorems settling the frozen claims about it.

Conventions of the embedding:
* JavaScript numbers (IEEE doubles) are modelled as exact rationals where
  arithmetic appears (the frecency formula) and as integers for epoch
  timestamps that are only compared.
* A possibly-absent object field is an `Option`; JavaScript truthiness of
  a number is `≠ 0` on a present value, truthiness of a string is `≠ ""`,
  and an array is always truthy when present.
* `Array.prototype.sort` is modelled as a stable sort (`List.insertionSort`)
  on the relation `comparator a b ≤ 0`, matching the ECMAScript requirement
  of a stable sort that may place `a` before `b` whenever the comparator
  is nonpositive.
* Promise-based code is modelled by explicit state passing: the persisted
  key-value store is threaded through each operation in submission order
  (the single-threaded linearization of the callback interleaving).
* The external `url-parse` host extraction and the noise-filter regexes of
  ChromePlacesProvider.js are opaque collaborators, modelled as function
  parameters; theorems quantify over them.
-/

namespace ActivityStream

/-- JavaScript truthiness of a possibly-absent number field:
`undefined` and `0` are falsy. -/
def truthyNum (o : Option Int) : Bool :=
  match o with
  | none => false
  | some n => n != 0

/-- JavaScript string comparison, on lists of characters: lexicographic by
code unit (urls are ASCII, where code units and code points agree). -/
def jsStrLtAux : List Char → List Char → Bool
  | [], [] => false
  | [], _ :: _ => true
  | _ :: _, [] => false
  | a :: as, b :: bs =>
    if a.val < b.val then true
    else if b.val < a.val then false
    else jsStrLtAux as bs

/-- JavaScript string comparison `a < b`: lexicographic by code unit. -/
def jsStrLt (a b : String) : Bool :=
  jsStrLtAux a.data b.data

/-- JavaScript truthiness of a possibly-absent string field:
`undefined` and the empty string are falsy. -/
def truthyStr (o : Option String) : Bool :=
  match o with
  | none => false
  | some s => s != ""

/-- Relation sorted against by `Array.prototype.sort` with comparator
`cmp`: the engine may keep `a` before `b` exactly when `cmp a b ≤ 0`. -/
def jsSortLe (cmp : α → α → Int) (a b : α) : Prop :=
  cmp a b ≤ 0

instance (cmp : α → α → Int) : DecidableRel (jsSortLe cmp) :=
  fun a b => inferInstanceAs (Decidable (cmp a b ≤ 0))

/-- Model of `Array.prototype.sort(cmp)`: a stable sort placing `a` before
`b` when `cmp a b ≤ 0`. -/
def jsSort (cmp : α → α → Int) (l : List α) : List α :=
  l.insertionSort (jsSortLe cmp)

/-- History record as consumed by `_getTopFrecentSites`
(ChromePlacesProvider.js): a raw Chrome history result carrying
`url`, `lastVisitTime`, the normalized `lastVisitDate` and `visitCount`. -/
structure Hist where
  url : String
  lastVisitTime : ℚ
  lastVisitDate : ℚ
  visitCount : ℚ
deriving DecidableEq, Repr

/-- History record together with the `frencency` score attached by the
`map` step of `_getTopFrecentSites` (`Object.assign(hist, {frencency})`). -/
structure Scored where
  hist : Hist
  frencency : ℚ
deriving DecidableEq, Repr

/-- JavaScript `Math.max` on two numbers: the larger argument. -/
def jsMax (a b : ℚ) : ℚ :=
  if a < b then b else a

/-- Embedding of `_calculateFrecency` (ChromePlacesProvider.js 240-247):
age in days from microsecond timestamps, then
`visitCount * Math.max(1, 100 * 225 / (age*age + 225))`;
`now` stands for `new Date().getTime()`. -/
def calculateFrecency (now : ℚ) (hist : Hist) : ℚ :=
  let microsecondsPerDay : ℚ := 86400000000
  let microsecondsToday := now * 1000
  let microsecondsLastVisitDate := hist.lastVisitDate * 1000
  let age := (microsecondsToday - microsecondsLastVisitDate) / microsecondsPerDay
  hist.visitCount * jsMax 1 (100 * 225 / (age * age + 225))

/-- Embedding of the sort comparator of `_getTopFrecentSites`
(ChromePlacesProvider.js 212-226), verbatim branch for branch; note the
source has no branch returning `1` for a smaller `lastVisitTime`. -/
def cmpFrecent (a b : Scored) : Int :=
  if a.frencency > b.frencency then -1
  else if a.frencency < b.frencency then 1
  else if a.hist.lastVisitTime > b.hist.lastVisitTime then -1
  else if jsStrLt b.hist.url a.hist.url then -1
  else 0

/-- Loop body of the host-consolidation `forEach` of `_getTopFrecentSites`
(ChromePlacesProvider.js 195-204): `seen` is the set of hosts already in
`hostMap`, and a history item is pushed only when its host is new. -/
def dedupByHostAux (host : String → String) : List String → List Hist → List Hist
  | _, [] => []
  | seen, h :: rest =>
    if host h.url ∈ seen then dedupByHostAux host seen rest
    else h :: dedupByHostAux host (host h.url :: seen) rest

/-- Host consolidation of `_getTopFrecentSites`: keep only the first
history item per distinct host, in input order (`hostMap` starts empty). -/
def dedupByHost (host : String → String) (histories : List Hist) : List Hist :=
  dedupByHostAux host [] histories

/-- Embedding of `_getTopFrecentSites` (ChromePlacesProvider.js 188-229):
consolidate by host, drop urls matching the noise regex, attach the
frecency score, and sort with `cmpFrecent`. The `url-parse` host
extraction and the composite regex test are opaque collaborators passed
as `host` and `noise`. -/
def getTopFrecentSites (host : String → String) (noise : String → Bool)
    (now : ℚ) (histories : List Hist) : List Scored :=
  let filteredHistories := dedupByHost host histories
  let rows := jsSort cmpFrecent
    ((filteredHistories.filter (fun h => !(noise h.url))).map
      (fun h => { hist := h, frencency := calculateFrecency now h }))
  rows

/-- The output order claimed by the spec for the top-frecent ranking:
descending score, then higher `lastVisitTime` first, then
lexicographically greater `url` first. -/
def specTopFrecentOrder (a b : Scored) : Prop :=
  a.frencency > b.frencency ∨
    (a.frencency = b.frencency ∧
      (a.hist.lastVisitTime > b.hist.lastVisitTime ∨
        (a.hist.lastVisitTime = b.hist.lastVisitTime ∧
          (jsStrLt b.hist.url a.hist.url = true ∨ a.hist.url = b.hist.url))))

instance : DecidableRel specTopFrecentOrder := fun a b => by
  unfold specTopFrecentOrder
  exact inferInstance

/-- Bookmark record as sorted by `recentBookmarks`
(ChromePlacesProvider.js 29-45): `dateAdded` is an epoch-millisecond
timestamp attached by the Chrome bookmarks api. -/
structure Bookmark where
  url : String
  dateAdded : Int
deriving DecidableEq, Repr

/-- Embedding of the sort comparator of `recentBookmarks`
(ChromePlacesProvider.js 33-41). -/
def cmpDateAdded (a b : Bookmark) : Int :=
  if a.dateAdded > b.dateAdded then -1
  else if a.dateAdded < b.dateAdded then 1
  else 0

/-- Embedding of `recentBookmarks` (ChromePlacesProvider.js 29-45) as a
function of the bookmark list produced by `_getBookmarks`: the rows are
sorted in place with `cmpDateAdded` and resolved. -/
def recentBookmarksSort (bookmarks : List Bookmark) : List Bookmark :=
  jsSort cmpDateAdded bookmarks

/-- Preview image record built by `_fetchMetadata`
(`{url, width: 450, height: 278}`). -/
structure ImageInfo where
  url : String
  width : Int
  height : Int
deriving DecidableEq, Repr

/-- Unified site/link record flowing through the highlight selection and
metadata enrichment pipeline. Absent object fields are `none`. -/
structure Site where
  url : String
  lastVisitDate : Option Int := none
  dateAdded : Option Int := none
  visitCount : Option Int := none
  images : Option (List ImageInfo) := none
  description : Option String := none
  favicon_url : Option String := none
deriving DecidableEq, Repr

/-- Result of the external page-metadata parser
(`getMetadata` of page-metadata-parser): the fields `_fetchMetadata`
reads from the parsed document. -/
structure PageMetadata where
  image_url : Option String := none
  description : Option String := none
  icon_url : Option String := none
deriving DecidableEq, Repr

/-- Outcome of `fetch(site.url)` followed by parsing: either the network
fetch fails (the `catch` branch of `_fetchMetadata` fires), or it
succeeds and the parser returns a `PageMetadata`. -/
inductive FetchOutcome where
  | failure : FetchOutcome
  | success : PageMetadata → FetchOutcome
deriving DecidableEq, Repr

/-- Embedding of `_fetchMetadata` (src/unnamed/part_001 71-107): on fetch
failure the site is resolved unchanged (the `catch` resolves it before
any field is assigned); on success each truthy parsed field is assigned
onto the site, an image as the single-element list
`[{url, width: 450, height: 278}]`. -/
def fetchMetadata (site : Site) (outcome : FetchOutcome) : Site :=
  match outcome with
  | .failure => site
  | .success pm =>
    let imageWidth : Int := 450
    let imageHeight : Int := 278
    let site :=
      if truthyStr pm.image_url then
        { site with images := some [{ url := pm.image_url.getD "",
                                      width := imageWidth,
                                      height := imageHeight }] }
      else site
    let site :=
      if truthyStr pm.description then { site with description := pm.description }
      else site
    let site :=
      if truthyStr pm.icon_url then { site with favicon_url := pm.icon_url }
      else site
    site

/-- Persisted metadata record of the METADATA table: the object literal
`{url, images, description}` built by `_getMetadata`. -/
structure MetaEntry where
  url : String
  images : Option (List ImageInfo) := none
  description : Option String := none
deriving DecidableEq, Repr

/-- The METADATA table of the persisted key-value store, keyed by url. -/
abbrev MetaStore : Type := List MetaEntry

/-- Modelled from the spec: the repository's `db` module is not under
src/; §6 describes the persisted key-value store as supporting
get-by-key. `db.getItem(METADATA, {url})` returns the entry whose key
matches, or nothing. -/
def dbGetItem (store : MetaStore) (url : String) : Option MetaEntry :=
  List.find? (fun e => e.url == url) store

/-- Modelled from the spec: the repository's `db` module is not under
src/; §6 describes the persisted key-value store as supporting upsert.
`db.addOrUpdateExisting(METADATA, entry)` replaces the entry with the
same url key, or appends a new one. -/
def dbAddOrUpdate (store : MetaStore) (entry : MetaEntry) : MetaStore :=
  if List.any store (fun e => e.url == entry.url) then
    List.map (fun e => if e.url == entry.url then entry else e) store
  else store ++ [entry]

/-- Embedding of `_getMetadata` (src/unnamed/part_001 42-63): consult the
METADATA table by url; on a hit, `Object.assign(site, metadata)` copies
the stored `images` and `description` onto the site (also when they are
absent) and the store is untouched; on a miss, `_fetchMetadata` runs
(its outcome given by `oracle` at the site's url) and the object literal
`{url, images, description}` built from the result is persisted
unconditionally. -/
def getMetadata (store : MetaStore) (oracle : String → FetchOutcome)
    (site : Site) : MetaStore × Site :=
  match dbGetItem store site.url with
  | some metadata =>
    (store, { site with images := metadata.images, description := metadata.description })
  | none =>
    let siteWithMetadata := fetchMetadata site (oracle site.url)
    let entry : MetaEntry := { url := siteWithMetadata.url,
                               images := siteWithMetadata.images,
                               description := siteWithMetadata.description }
    (dbAddOrUpdate store entry, siteWithMetadata)

/-- Substring test on character lists, used to model the regex
`/(google|localhost|chrome)/.test(url)`. -/
def containsSub (l pat : List Char) : Bool :=
  List.any (List.range (l.length + 1)) (fun i => List.isPrefixOf pat (l.drop i))

/-- JavaScript regex `/(google|localhost|chrome)/.test(u)` of
`getLinksMetadata` (src/unnamed/part_001 15): true when the url contains
any of the three literals. -/
def metadataNoiseTest (u : String) : Bool :=
  containsSub u.data "google".data || containsSub u.data "localhost".data ||
    containsSub u.data "chrome".data

/-- JavaScript truthiness of a possibly-absent array field: an array is
truthy whenever present, even when empty. -/
def truthyImages (o : Option (List ImageInfo)) : Bool :=
  o.isSome

/-- Candidates `getLinksMetadata` actually looks metadata up for
(src/unnamed/part_001 14-17): drop noise urls, then `slice(0, 8)`. -/
def enrichLookups (sites : List Site) : List Site :=
  (sites.filter (fun site => !metadataNoiseTest site.url)).take 8

/-- Sequential linearization of the `Promise.all` over the `_getMetadata`
calls of `getLinksMetadata`: the METADATA store is threaded through the
per-site operations in submission order, collecting the resolved sites. -/
def runGetMetadataAll (oracle : String → FetchOutcome) :
    MetaStore → List Site → MetaStore × List Site
  | store, [] => (store, [])
  | store, site :: rest =>
    let first := getMetadata store oracle site
    let more := runGetMetadataAll oracle first.1 rest
    (more.1, first.2 :: more.2)

/-- Embedding of `getLinksMetadata` (src/unnamed/part_001 12-25): look up
metadata for at most 8 non-noise candidates, then keep only resolved
sites whose `images` and `description` are truthy. -/
def getLinksMetadata (store : MetaStore) (oracle : String → FetchOutcome)
    (sites : List Site) : MetaStore × List Site :=
  let run := runGetMetadataAll oracle store (enrichLookups sites)
  (run.1, run.2.filter (fun s => truthyImages s.images && truthyStr s.description))

/-- Embedding of `_isHighlightItem` (ChromePlacesProvider.js 288-305).
The two age flags start `undefined` (`none`); the `if/else if` assigns
the three-day flag when `dateAdded` is truthy, and only otherwise
assigns the thirty-minute flag when `lastVisitDate` is truthy; a still
`undefined` flag is falsy in the final disjunction. -/
def isHighlightItem (today : Int) (item : Site) : Bool :=
  let threeDays : Int := 3 * 24 * 60 * 60 * 1000
  let thirtyMinutes : Int := 30 * 60 * 1000
  let lastVisitDate := item.lastVisitDate
  let dateAdded := item.dateAdded
  let isThreeDaysOrOlder : Option Bool :=
    if truthyNum dateAdded then some (decide (today - dateAdded.getD 0 > threeDays))
    else none
  let isThirtyMinutesOrOlder : Option Bool :=
    if !truthyNum dateAdded && truthyNum lastVisitDate then
      some (decide (today - lastVisitDate.getD 0 > thirtyMinutes))
    else none
  let isVisitCountAtMostThree := decide (item.visitCount.getD 0 ≤ 3)
  (isThirtyMinutesOrOlder.getD false || isThreeDaysOrOlder.getD false) &&
    isVisitCountAtMostThree

/-- The inclusion rule as the claim states it: `visitCount <= 3` AND
((`dateAdded` present and `now - dateAdded > 3 days`) OR (`lastVisitDate`
present and `now - lastVisitDate > 30 minutes`)); an item with both
fields qualifies when either time branch holds. -/
def claimedHighlightRule (today : Int) (item : Site) : Prop :=
  item.visitCount.getD 0 ≤ 3 ∧
    ((item.dateAdded.isSome ∧ today - item.dateAdded.getD 0 > 3 * 24 * 60 * 60 * 1000) ∨
      (item.lastVisitDate.isSome ∧ today - item.lastVisitDate.getD 0 > 30 * 60 * 1000))

instance (today : Int) (item : Site) : Decidable (claimedHighlightRule today item) := by
  unfold claimedHighlightRule
  exact inferInstance

/-- Highlight candidates of `_getHighlights` (ChromePlacesProvider.js
255-278) before shuffling and enrichment: bookmarks and histories each
filtered by the composite noise regex (an opaque collaborator passed as
`noise`), concatenated, and filtered by `_isHighlightItem`. -/
def selectHighlightRows (today : Int) (noise : String → Bool)
    (bookmarks histories : List Site) : List Site :=
  ((bookmarks.filter (fun b => !noise b.url)) ++
      (histories.filter (fun h => !noise h.url))).filter
    (fun item => isHighlightItem today item)

/-- The BLOCKED_URL table of the persisted key-value store: the urls of
the stored `{url}` records. -/
abbrev BlockedStore : Type := List String

/-- Modelled from the spec: the repository's `db` module is not under
src/; §6 describes the blocked-URL set as supporting upsert. Embedding
of `addBlockedUrl` (ChromePlacesProvider.js 95-97):
`db.addOrUpdateExisting(BLOCKED_URL, {url})`, keyed by url. -/
def addBlockedUrl (store : BlockedStore) (url : String) : BlockedStore :=
  if List.any store (fun u => u == url) then store else store ++ [url]

/-- Modelled from the spec: the repository's `db` module is not under
src/; §6 describes the blocked-URL set as supporting remove-all.
Embedding of `unblockAllUrl` (ChromePlacesProvider.js 104-106):
`db.removeAll(BLOCKED_URL)`. -/
def unblockAllUrl (_store : BlockedStore) : BlockedStore :=
  []

/-- Embedding of `_filterBlockedUrls` (ChromePlacesProvider.js 313-322):
keep the items whose url does not occur among the stored blocked urls
(`blockedUrls.indexOf(item.url) === -1`). -/
def filterBlockedUrls (store : BlockedStore) (items : List Site) : List Site :=
  items.filter (fun item => !List.any store (fun u => u == item.url))

/-- One step of `processQueue` inside `_rateLimit` (src/unnamed/part_001
121-129): `queue.shift()` returns the front item, if any, and the rest
of the queue. -/
def processQueueShift (queue : List Nat) : Option Nat × List Nat :=
  match queue with
  | [] => (none, [])
  | item :: rest => (some item, rest)

/-- Embedding of one invocation of `_rateLimit(fn)` (src/unnamed/part_001
117-141), submitted at time `t` (a discrete instant): the function body
allocates a fresh `queue = []` and `timer = null` on every call, pushes
the single argument record, and, since `timer` is always null here, runs
`processQueue` synchronously, initiating the fetch at once. The returned
list holds the instants at which this call initiates fetches during its
synchronous part. -/
def rateLimitCall (t : Nat) : List Nat :=
  let queue : List Nat := []
  let timer : Option Nat := none
  let queue := queue ++ [t]
  match timer with
  | some _ => []
  | none =>
    match processQueueShift queue with
    | (some item, _rest) => [item]
    | (none, _) => []

/-- Fetch initiations produced by a sequence of `_rateLimit` submissions
at the given instants: the queue and timer are local to each call, so
the calls are independent. -/
def rateLimitSchedule (submissions : List Nat) : List Nat :=
  (submissions.map rateLimitCall).flatten

/-- An images field that never represents an empty preview list: it is
either absent or a non-empty list. Every images value the pipeline
itself writes satisfies this. -/
def goodImages (o : Option (List ImageInfo)) : Prop :=
  o ≠ some []

instance (o : Option (List ImageInfo)) : Decidable (goodImages o) := by
  unfold goodImages
  exact inferInstance

/-- A METADATA store whose entries all have well-formed images fields. -/
def goodStore (store : MetaStore) : Prop :=
  ∀ e ∈ store, goodImages e.images

instance (store : MetaStore) : Decidable (goodStore store) := by
  unfold goodStore
  exact inferInstance

/-- Item added one second before the reference instant (so the three-day
branch fails) but last visited an hour before it (so the claimed
thirty-minute branch would succeed). -/
def c4Item : Site :=
  { url := "http://c4.example", dateAdded := some 999999999000,
    lastVisitDate := some 999996400000, visitCount := some 1 }

/-- Bookmark-origin candidate used to instantiate the highlight
theorems: added long before the reference instant and visited twice. -/
def c9Bookmark : Site :=
  { url := "http://b.example", dateAdded := some 1000, visitCount := some 2 }

/-- Fetch oracle whose every fetch succeeds with an image url and a
description. -/
def successOracle : String → FetchOutcome :=
  fun _ => .success { image_url := some "http://i.example/i.png",
                      description := some "words", icon_url := none }

/-- Candidate site used to instantiate the enrichment theorems. -/
def c6Site : Site :=
  { url := "http://a.example" }

/-- Embedding of `new RegExp(LOCAL_REGEX)` at ChromePlacesProvider.js
190: line 3 destructures `LOCAL_REGEX` from constants.js, which exports
`LOCALHOST_REGEX` instead, so the value is `undefined` and
`new RegExp(undefined)` is the empty pattern `(?:)`, which matches the
empty string at some position of every input: its test is constantly
true. -/
def emptyPatternTest (_u : String) : Bool :=
  true

/-- Embedding of `filterRegex.test(url)` for `_getTopFrecentSites`
(ChromePlacesProvider.js 189-192): the alternation of
SEARCH_RESULT_REGEX (an opaque collaborator passed as `searchTest`),
the undefined LOCAL_REGEX (the always-matching empty pattern) and
BROWSER_RESOURCE_REGEX (`"chrome"`, a substring test); an alternation
matches when any alternative does. -/
def topSitesNoiseTest (searchTest : String → Bool) (u : String) : Bool :=
  searchTest u || emptyPatternTest u || containsSub u.data "chrome".data

/-- Embedding of `_getTopFrecentSites` with its own composite noise
filter staged in, as the program actually runs it. -/
def getTopFrecentSitesStaged (host : String → String)
    (searchTest : String → Bool) (now : ℚ) (histories : List Hist) :
    List Scored :=
  getTopFrecentSites host (topSitesNoiseTest searchTest) now histories

/-! ## Theorems -/

/-- A comparator that is consistent with a key projection sorts the list
by that key: whenever `cmp a b ≤ 0` holds exactly when the key of `b` is
at most the key of `a`, the stable sort output is pairwise ordered by
non-increasing key. -/
theorem jsSort_pairwise_key {α β : Type _} [LinearOrder β] (cmp : α → α → Int)
    (k : α → β) (h : ∀ a b, cmp a b ≤ 0 ↔ k b ≤ k a) (l : List α) :
    (jsSort cmp l).Pairwise (fun a b => k b ≤ k a) := by
  haveI : IsTotal α (jsSortLe cmp) := ⟨fun a b => by
    rcases le_total (k b) (k a) with hh | hh
    · exact Or.inl ((h a b).mpr hh)
    · exact Or.inr ((h b a).mpr hh)⟩
  haveI : IsTrans α (jsSortLe cmp) := ⟨fun a b c hab hbc =>
    (h a c).mpr (le_trans ((h b c).mp hbc) ((h a b).mp hab))⟩
  have hs := List.sorted_insertionSort (r := jsSortLe cmp) l
  exact hs.imp (fun hab => (h _ _).mp hab)

/-- The frecency comparator is nonpositive exactly when the right score
is at most the left score: its `return 1` branch is the only positive
one and fires exactly on a strictly smaller left score. -/
theorem cmpFrecent_le_zero_iff (a b : Scored) :
    cmpFrecent a b ≤ 0 ↔ b.frencency ≤ a.frencency := by
  unfold cmpFrecent
  split_ifs with h1 h2 h3 h4
  · simp only [neg_nonpos]
    constructor
    · intro _; exact le_of_lt h1
    · intro _; decide
  · constructor
    · intro hcon; omega
    · intro hcon; exact absurd hcon (not_le.mpr h2)
  · have : a.frencency = b.frencency := le_antisymm (not_lt.mp h1) (not_lt.mp h2)
    constructor
    · intro _; exact le_of_eq this.symm
    · intro _; decide
  · have : a.frencency = b.frencency := le_antisymm (not_lt.mp h1) (not_lt.mp h2)
    constructor
    · intro _; exact le_of_eq this.symm
    · intro _; decide
  · have : a.frencency = b.frencency := le_antisymm (not_lt.mp h1) (not_lt.mp h2)
    constructor
    · intro _; exact le_of_eq this.symm
    · intro _; decide

/-- The bookmark comparator is nonpositive exactly when the right
`dateAdded` is at most the left one. -/
theorem cmpDateAdded_le_zero_iff (a b : Bookmark) :
    cmpDateAdded a b ≤ 0 ↔ b.dateAdded ≤ a.dateAdded := by
  unfold cmpDateAdded
  split_ifs with h1 h2 <;> constructor <;> intro hh <;> omega

/-- For any noise predicate, the `_getTopFrecentSites` output is sorted
in non-increasing frecency order: the comparator returns a positive
value only on a strictly smaller left score. -/
theorem getTopFrecentSites_sorted_by_frecency (host : String → String)
    (noise : String → Bool) (now : ℚ) (histories : List Hist) :
    (getTopFrecentSites host noise now histories).Pairwise
      (fun a b => b.frencency ≤ a.frencency) :=
  jsSort_pairwise_key cmpFrecent (fun s => s.frencency) cmpFrecent_le_zero_iff _

/-- C1: for every input list of history links, the list returned by the
staged `_getTopFrecentSites` is sorted in the claimed
score → lastVisitTime → url order. The confirmation is vacuous: the
composite noise regex contains the always-matching empty pattern coming
from the undefined `LOCAL_REGEX` import, so the filter removes every
history item and the ranking always returns the empty list, which is
sorted under any order. -/
theorem getTopFrecentSites_claimed_order (host : String → String)
    (searchTest : String → Bool) (now : ℚ) (histories : List Hist) :
    getTopFrecentSitesStaged host searchTest now histories = [] ∧
    List.Sorted specTopFrecentOrder
      (getTopFrecentSitesStaged host searchTest now histories) := by
  have hfil : (dedupByHost host histories).filter
      (fun h => !(topSitesNoiseTest searchTest h.url)) = [] := by
    rw [List.filter_eq_nil_iff]
    intro a _
    simp [topSitesNoiseTest, emptyPatternTest]
  have hempty : getTopFrecentSitesStaged host searchTest now histories = [] := by
    show jsSort cmpFrecent
        (((dedupByHost host histories).filter
            (fun h => !(topSitesNoiseTest searchTest h.url))).map
          (fun h => { hist := h, frencency := calculateFrecency now h })) = []
    rw [hfil]
    rfl
  rw [hempty]
  exact ⟨rfl, List.sorted_nil⟩

/-- Nothing the host consolidation keeps has a host that was already in
the seen set. -/
theorem dedupByHostAux_not_seen (host : String → String) :
    ∀ (l : List Hist) (seen : List String) (x : Hist),
      x ∈ dedupByHostAux host seen l → host x.url ∉ seen
  | [], _, _, hx => absurd hx (List.not_mem_nil _)
  | h :: rest, seen, x, hx => by
    unfold dedupByHostAux at hx
    split at hx
    · exact dedupByHostAux_not_seen host rest seen x hx
    · rcases List.mem_cons.mp hx with rfl | hx'
      · assumption
      · have := dedupByHostAux_not_seen host rest (host h.url :: seen) x hx'
        exact fun hc => this (List.mem_cons_of_mem _ hc)

/-- The host consolidation output has pairwise distinct hosts. -/
theorem dedupByHostAux_pairwise (host : String → String) :
    ∀ (l : List Hist) (seen : List String),
      (dedupByHostAux host seen l).Pairwise
        (fun a b => host a.url ≠ host b.url)
  | [], _ => List.Pairwise.nil
  | h :: rest, seen => by
    unfold dedupByHostAux
    split
    · exact dedupByHostAux_pairwise host rest seen
    · refine List.Pairwise.cons (fun y hy => ?_) (dedupByHostAux_pairwise host rest _)
      have := dedupByHostAux_not_seen host rest (host h.url :: seen) y hy
      exact fun he => this (he ▸ List.mem_cons_self _ _)

/-- The host consolidation output is a sublist of the input: survivors
appear in input order. -/
theorem dedupByHostAux_sublist (host : String → String) :
    ∀ (l : List Hist) (seen : List String), List.Sublist (dedupByHostAux host seen l) l
  | [], _ => List.Sublist.refl _
  | h :: rest, seen => by
    unfold dedupByHostAux
    split
    · exact List.Sublist.cons h (dedupByHostAux_sublist host rest seen)
    · exact List.Sublist.cons₂ h (dedupByHostAux_sublist host rest _)

/-- Every survivor of the host consolidation is the first input element
with its host. -/
theorem dedupByHostAux_first_seen (host : String → String) :
    ∀ (l : List Hist) (seen : List String) (x : Hist),
      x ∈ dedupByHostAux host seen l →
      l.find? (fun z => host z.url == host x.url) = some x
  | [], _, _, hx => absurd hx (List.not_mem_nil _)
  | h :: rest, seen, x, hx => by
    unfold dedupByHostAux at hx
    split at hx
    · have hne : host h.url ≠ host x.url := fun he =>
        dedupByHostAux_not_seen host rest seen x hx (he ▸ (by assumption))
      rw [List.find?_cons_of_neg _ (by simpa using hne)]
      exact dedupByHostAux_first_seen host rest seen x hx
    · rcases List.mem_cons.mp hx with rfl | hx'
      · exact List.find?_cons_of_pos _ (by simp)
      · have hnotin := dedupByHostAux_not_seen host rest (host h.url :: seen) x hx'
        have hne : host h.url ≠ host x.url := fun he =>
          hnotin (he ▸ List.mem_cons_self _ _)
        rw [List.find?_cons_of_neg _ (by simpa using hne)]
        exact dedupByHostAux_first_seen host rest _ x hx'

/-- Every input host is either already seen or represented among the
survivors of the host consolidation. -/
theorem dedupByHostAux_covers (host : String → String) :
    ∀ (l : List Hist) (seen : List String) (y : Hist), y ∈ l →
      host y.url ∈ seen ∨
        ∃ x ∈ dedupByHostAux host seen l, host x.url = host y.url
  | [], _, _, hy => absurd hy (List.not_mem_nil _)
  | h :: rest, seen, y, hy => by
    unfold dedupByHostAux
    split
    · rcases List.mem_cons.mp hy with he | hy'
      · exact Or.inl (by rw [he]; assumption)
      · exact dedupByHostAux_covers host rest seen y hy'
    · rcases List.mem_cons.mp hy with he | hy'
      · exact Or.inr ⟨h, List.mem_cons_self _ _, by rw [he]⟩
      · rcases dedupByHostAux_covers host rest (host h.url :: seen) y hy' with hseen | ⟨x, hx, hxy⟩
        · rcases List.mem_cons.mp hseen with he | hseen'
          · exact Or.inr ⟨h, List.mem_cons_self _ _, he.symm⟩
          · exact Or.inl hseen'
        · exact Or.inr ⟨x, List.mem_cons_of_mem _ hx, hxy⟩

/-- C2: for every input list, the `_getTopFrecentSites` output never has
two links whose urls share a host; the host consolidation retains
exactly the first-seen link per distinct host, in input order (it is a
sublist of the input covering every input host), and it happens before
scoring: every output row is a consolidation survivor with the frecency
score attached afterwards. -/
theorem getTopFrecentSites_host_dedup (host : String → String)
    (noise : String → Bool) (now : ℚ) (histories : List Hist) :
    (getTopFrecentSites host noise now histories).Pairwise
      (fun a b => host a.hist.url ≠ host b.hist.url) ∧
    List.Sublist (dedupByHost host histories) histories ∧
    (∀ x ∈ dedupByHost host histories,
      histories.find? (fun z => host z.url == host x.url) = some x) ∧
    (∀ y ∈ histories,
      ∃ x ∈ dedupByHost host histories, host x.url = host y.url) ∧
    (∀ s ∈ getTopFrecentSites host noise now histories,
      s.hist ∈ dedupByHost host histories ∧
        s.frencency = calculateFrecency now s.hist) := by
  refine ⟨?_, dedupByHostAux_sublist host histories [],
    fun x hx => dedupByHostAux_first_seen host histories [] x hx,
    fun y hy => dedupByHostAux_covers host histories [] y hy |>.resolve_left
      (List.not_mem_nil _), ?_⟩
  · have hperm : List.Perm (getTopFrecentSites host noise now histories)
        (((dedupByHost host histories).filter (fun h => !(noise h.url))).map
          (fun h => { hist := h, frencency := calculateFrecency now h })) :=
      List.perm_insertionSort _ _
    have hpw :
        (((dedupByHost host histories).filter (fun h => !(noise h.url))).map
            (fun h => ({ hist := h, frencency := calculateFrecency now h } : Scored))).Pairwise
          (fun a b => host a.hist.url ≠ host b.hist.url) := by
      rw [List.pairwise_map]
      exact ((dedupByHostAux_pairwise host histories []).sublist
        (List.filter_sublist _))
    exact (hperm.pairwise_iff (fun h he => h he.symm)).mpr hpw
  · intro s hs
    have hperm : List.Perm (getTopFrecentSites host noise now histories)
        (((dedupByHost host histories).filter (fun h => !(noise h.url))).map
          (fun h => { hist := h, frencency := calculateFrecency now h })) :=
      List.perm_insertionSort _ _
    have hs' := hperm.mem_iff.mp hs
    rcases List.mem_map.mp hs' with ⟨h, hh, rfl⟩
    exact ⟨List.mem_of_mem_filter hh, rfl⟩

/-- C10: for every bookmark list, `recentBookmarks` resolves with the
rows sorted in non-increasing order of `dateAdded` (newest first), even
though its documentation comment says the bookmarks are sorted
ascendingly by the date the bookmark is added. -/
theorem recentBookmarksSort_sorted_descending (bookmarks : List Bookmark) :
    (recentBookmarksSort bookmarks).Pairwise
      (fun a b => b.dateAdded ≤ a.dateAdded) :=
  jsSort_pairwise_key cmpDateAdded (fun b => b.dateAdded) cmpDateAdded_le_zero_iff
    bookmarks

/-- C4, counterexample: an item with both fields, a recent `dateAdded`
and a `lastVisitDate` older than thirty minutes, satisfies the claimed
disjunction but `_isHighlightItem` returns false, because its `else if`
never evaluates the thirty-minute branch when `dateAdded` is truthy. -/
theorem isHighlightItem_counterexample :
    claimedHighlightRule 1000000000000 c4Item ∧
      isHighlightItem 1000000000000 c4Item = false := by
  decide

/-- C4, amended: `_isHighlightItem` returns true iff the visit count
(absent counted as 0) is at most 3 and, when `dateAdded` is truthy, the
item is more than 3 days old; only when `dateAdded` is falsy does a
truthy `lastVisitDate` more than 30 minutes old qualify instead. -/
theorem isHighlightItem_iff (today : Int) (item : Site) :
    isHighlightItem today item = true ↔
      (((truthyNum item.dateAdded = true ∧
          today - item.dateAdded.getD 0 > 3 * 24 * 60 * 60 * 1000) ∨
        (truthyNum item.dateAdded = false ∧
          truthyNum item.lastVisitDate = true ∧
          today - item.lastVisitDate.getD 0 > 30 * 60 * 1000)) ∧
        item.visitCount.getD 0 ≤ 3) := by
  unfold isHighlightItem
  cases hd : truthyNum item.dateAdded <;>
    cases hl : truthyNum item.lastVisitDate <;>
      simp [hd, hl, decide_eq_true_eq]

/-- C5: no rate limiting actually happens across submissions, because
`_rateLimit` allocates a fresh `queue` and a null `timer` on every call:
every submission initiates its fetch immediately, so two submissions at
the same instant yield two initiations in the same interval, against the
at-most-one-per-interval reading and the doc comment of the source. -/
theorem rateLimitSchedule_runs_immediately :
    rateLimitSchedule [0, 0] = [0, 0] ∧
      ∀ submissions : List Nat, rateLimitSchedule submissions = submissions := by
  refine ⟨rfl, fun submissions => ?_⟩
  induction submissions with
  | nil => rfl
  | cons t rest ih =>
    simp only [rateLimitSchedule, List.map_cons, List.flatten_cons] at ih ⊢
    rw [ih]
    rfl

/-- C7: a site whose network fetch fails, or whose fetched page parses to
no metadata fields, is resolved unchanged by `_fetchMetadata`; the
promise resolves (the embedding is a total function into `Site`, not an
error sum), so no error reaches the caller. -/
theorem fetchMetadata_failure_resolves_unchanged (site : Site) :
    fetchMetadata site .failure = site ∧
      fetchMetadata site (.success {}) = site :=
  ⟨rfl, rfl⟩

/-- C8: blocking a url after clearing the blocklist makes
`_filterBlockedUrls` remove exactly the links with that url, and
clearing the blocklist makes it the identity. -/
theorem blocklist_roundtrip (store : BlockedStore) (url : String)
    (items : List Site) :
    filterBlockedUrls (addBlockedUrl (unblockAllUrl store) url) items =
      items.filter (fun item => !(item.url == url)) ∧
    filterBlockedUrls (unblockAllUrl store) items = items := by
  constructor
  · show filterBlockedUrls (addBlockedUrl [] url) items = _
    have h1 : addBlockedUrl [] url = [url] := rfl
    rw [h1]
    unfold filterBlockedUrls
    apply List.filter_congr
    intro a _
    have h2 : (url == a.url) = (a.url == url) := by
      by_cases hh : a.url = url
      · rw [hh]
      · have hh' : ¬ url = a.url := fun he => hh he.symm
        simp [hh, hh']
    simp [h2]
  · unfold filterBlockedUrls unblockAllUrl
    simp

/-- C3, counterexample: with an empty METADATA store and a failing fetch,
`_getMetadata` persists the entry `{url, images: undefined, description:
undefined}` for the site's url, so the store is not unchanged for that
key. -/
theorem getMetadata_failed_fetch_persists_counterexample :
    (getMetadata [] (fun _ => .failure) { url := "http://example.com" }).1 =
      [{ url := "http://example.com", images := none, description := none }] ∧
    dbGetItem
        (getMetadata [] (fun _ => .failure) { url := "http://example.com" }).1
        "http://example.com" =
      some { url := "http://example.com", images := none,
             description := none } := by
  constructor <;> rfl

/-- C3, amended: on a cache miss whose fetch fails before returning any
field, `_getMetadata` still upserts a CacheEntry for the site's url,
carrying the site's (absent) images and description, and resolves the
site unresolved. -/
theorem getMetadata_failed_fetch_persists_empty (store : MetaStore)
    (oracle : String → FetchOutcome) (site : Site)
    (hmiss : dbGetItem store site.url = none)
    (hfail : oracle site.url = .failure) :
    getMetadata store oracle site =
      (dbAddOrUpdate store { url := site.url, images := site.images,
                             description := site.description }, site) := by
  unfold getMetadata
  rw [hmiss, hfail]
  rfl

/-- C3, witness: the amended persistence behaviour at a concrete miss
with a failing fetch. -/
theorem getMetadata_failed_fetch_persists_empty_witness :
    getMetadata [] (fun _ => .failure) { url := "http://a.example" } =
      (dbAddOrUpdate [] { url := "http://a.example", images := none,
                          description := none },
        { url := "http://a.example" }) :=
  getMetadata_failed_fetch_persists_empty [] (fun _ => .failure)
    { url := "http://a.example" } rfl rfl

/-- The `_fetchMetadata` assignments only ever touch `images`,
`description` and `favicon_url`: the url and visit count of the site are
preserved. -/
theorem fetchMetadata_preserves (site : Site) (outcome : FetchOutcome) :
    (fetchMetadata site outcome).url = site.url ∧
    (fetchMetadata site outcome).visitCount = site.visitCount := by
  cases outcome with
  | failure => exact ⟨rfl, rfl⟩
  | success pm =>
    dsimp only [fetchMetadata]
    split_ifs <;> exact ⟨rfl, rfl⟩

/-- Whenever `_fetchMetadata` writes an images field, it writes a
single-element list, so well-formedness of the field is preserved. -/
theorem fetchMetadata_goodImages (site : Site) (outcome : FetchOutcome)
    (h : goodImages site.images) :
    goodImages (fetchMetadata site outcome).images := by
  cases outcome with
  | failure => exact h
  | success pm =>
    dsimp only [fetchMetadata]
    split_ifs <;> simp_all [goodImages]

/-- Upserting an entry with a well-formed images field preserves store
well-formedness. -/
theorem dbAddOrUpdate_good {store : MetaStore} {entry : MetaEntry}
    (hs : goodStore store) (he : goodImages entry.images) :
    goodStore (dbAddOrUpdate store entry) := by
  unfold dbAddOrUpdate
  split
  · intro e hme
    rcases List.mem_map.mp hme with ⟨x, hx, rfl⟩
    split
    · exact he
    · exact hs x hx
  · intro e hme
    rcases List.mem_append.mp hme with hme' | hme'
    · exact hs e hme'
    · rw [List.mem_singleton.mp hme']
      exact he

/-- The `_getMetadata` result site keeps the url and visit count of its
input site, on both the cache-hit and the cache-miss path. -/
theorem getMetadata_preserves (store : MetaStore)
    (oracle : String → FetchOutcome) (site : Site) :
    ((getMetadata store oracle site).2).url = site.url ∧
    ((getMetadata store oracle site).2).visitCount = site.visitCount := by
  unfold getMetadata
  cases hdb : dbGetItem store site.url with
  | some m => exact ⟨rfl, rfl⟩
  | none => exact fetchMetadata_preserves site (oracle site.url)

/-- A `_getMetadata` step keeps the store and the resolved site
well-formed: a cache hit copies a stored field, a miss persists and
returns a fetched one. -/
theorem getMetadata_good (store : MetaStore)
    (oracle : String → FetchOutcome) (site : Site)
    (hs : goodStore store) (hi : goodImages site.images) :
    goodStore (getMetadata store oracle site).1 ∧
    goodImages ((getMetadata store oracle site).2).images := by
  unfold getMetadata
  cases hdb : dbGetItem store site.url with
  | some m =>
    have hm : m ∈ store := List.mem_of_find?_eq_some hdb
    exact ⟨hs, hs m hm⟩
  | none =>
    have hgood := fetchMetadata_goodImages site (oracle site.url) hi
    exact ⟨dbAddOrUpdate_good hs hgood, hgood⟩

/-- Every site resolved by the linearized `_getMetadata` sequence comes
from an input site whose url and visit count it keeps. -/
theorem runGetMetadataAll_source (oracle : String → FetchOutcome) :
    ∀ (sites : List Site) (store : MetaStore),
      ∀ r ∈ (runGetMetadataAll oracle store sites).2,
        ∃ s ∈ sites, r.url = s.url ∧ r.visitCount = s.visitCount
  | [], _, _, hr => absurd hr (List.not_mem_nil _)
  | site :: rest, store, r, hr => by
    simp only [runGetMetadataAll] at hr
    rcases List.mem_cons.mp hr with he | hr'
    · refine ⟨site, List.mem_cons_self _ _, ?_⟩
      rw [he]
      exact getMetadata_preserves store oracle site
    · rcases runGetMetadataAll_source oracle rest _ r hr' with ⟨s, hsmem, h1, h2⟩
      exact ⟨s, List.mem_cons_of_mem _ hsmem, h1, h2⟩

/-- Every site resolved by the linearized `_getMetadata` sequence has a
well-formed images field, provided the store and all the input sites
do. -/
theorem runGetMetadataAll_good (oracle : String → FetchOutcome) :
    ∀ (sites : List Site) (store : MetaStore), goodStore store →
      (∀ s ∈ sites, goodImages s.images) →
      ∀ r ∈ (runGetMetadataAll oracle store sites).2, goodImages r.images
  | [], _, _, _, _, hr => absurd hr (List.not_mem_nil _)
  | site :: rest, store, hs, hall, r, hr => by
    simp only [runGetMetadataAll] at hr
    have hgm := getMetadata_good store oracle site hs
      (hall site (List.mem_cons_self _ _))
    rcases List.mem_cons.mp hr with he | hr'
    · rw [he]
      exact hgm.2
    · exact runGetMetadataAll_good oracle rest _ hgm.1
        (fun s hsm => hall s (List.mem_cons_of_mem _ hsm)) r hr'

/-- C6: `getLinksMetadata` initiates metadata lookup for at most 8
candidates, and every link it resolves carries a non-empty images list
and a non-empty description. The hypotheses state the pipeline
invariant that no images field anywhere is an empty list: the code
itself only ever writes absent or single-element images. -/
theorem getLinksMetadata_spec (store : MetaStore)
    (oracle : String → FetchOutcome) (sites : List Site)
    (hstore : goodStore store)
    (hsites : ∀ s ∈ sites, goodImages s.images) :
    (enrichLookups sites).length ≤ 8 ∧
    ∀ r ∈ (getLinksMetadata store oracle sites).2,
      (∃ l, r.images = some l ∧ l ≠ []) ∧
      ∃ d, r.description = some d ∧ d ≠ "" := by
  constructor
  · unfold enrichLookups
    exact List.length_take_le _ _
  · intro r hr
    have hr' := List.mem_filter.mp hr
    have hlookups : ∀ s ∈ enrichLookups sites, goodImages s.images := by
      intro s hsmem
      unfold enrichLookups at hsmem
      exact hsites s (List.mem_of_mem_filter (List.mem_of_mem_take hsmem))
    have hgood := runGetMetadataAll_good oracle (enrichLookups sites) store
      hstore hlookups r hr'.1
    have hpred := hr'.2
    rw [Bool.and_eq_true] at hpred
    constructor
    · rcases Option.isSome_iff_exists.mp hpred.1 with ⟨l, hl⟩
      refine ⟨l, hl, fun hnil => ?_⟩
      rw [hnil] at hl
      exact hgood hl
    · cases hd : r.description with
      | none =>
        rw [hd] at hpred
        exact absurd hpred.2 (by simp [truthyStr])
      | some d =>
        refine ⟨d, rfl, ?_⟩
        have hne := hpred.2
        rw [hd] at hne
        simpa [truthyStr] using hne

/-- C6, witness: the bound and the resolved-fields property at a
concrete store, oracle and candidate list. -/
theorem getLinksMetadata_spec_witness :
    (enrichLookups [c6Site]).length ≤ 8 ∧
    ∀ r ∈ (getLinksMetadata [] successOracle [c6Site]).2,
      (∃ l, r.images = some l ∧ l ≠ []) ∧
      ∃ d, r.description = some d ∧ d ≠ "" :=
  getLinksMetadata_spec [] successOracle [c6Site] (by decide) (by decide)

/-- The conjunction `_isHighlightItem` returns requires a visit count
(absent counted as 0) of at most 3. -/
theorem isHighlightItem_visitCount (today : Int) (item : Site)
    (h : isHighlightItem today item = true) :
    item.visitCount.getD 0 ≤ 3 := by
  simp only [isHighlightItem, Bool.and_eq_true, decide_eq_true_eq] at h
  exact h.2

/-- C9: the highlights pipeline never resolves a candidate whose visit
count exceeds 3: every selected row passes `_isHighlightItem`, the
shuffle is a permutation, and enrichment only removes rows, preserving
each survivor's visit count. -/
theorem selectHighlights_visitCount_le_three (today : Int)
    (noise : String → Bool) (bookmarks histories : List Site)
    (shuffled : List Site) (store : MetaStore)
    (oracle : String → FetchOutcome)
    (hshuffle : List.Perm shuffled
      (selectHighlightRows today noise bookmarks histories)) :
    ∀ r ∈ (getLinksMetadata store oracle shuffled).2,
      r.visitCount.getD 0 ≤ 3 := by
  intro r hr
  have hr' := List.mem_filter.mp hr
  obtain ⟨s, hsmem, _, hvc⟩ :=
    runGetMetadataAll_source oracle (enrichLookups shuffled) store r hr'.1
  have hs_shuffled : s ∈ shuffled := by
    unfold enrichLookups at hsmem
    exact List.mem_of_mem_filter (List.mem_of_mem_take hsmem)
  have hs_rows := hshuffle.mem_iff.mp hs_shuffled
  have hhl : isHighlightItem today s = true :=
    (List.mem_filter.mp hs_rows).2
  rw [hvc]
  exact isHighlightItem_visitCount today s hhl

/-- C9, witness: the bound at a concrete pipeline instance whose result
list contains the enriched bookmark. -/
theorem selectHighlights_visitCount_le_three_witness :
    ({ url := "http://b.example", dateAdded := some 1000,
       visitCount := some 2,
       images := some [{ url := "http://i.example/i.png", width := 450,
                         height := 278 }],
       description := some "words" } : Site).visitCount.getD 0 ≤ 3 :=
  selectHighlights_visitCount_le_three 1000000000000 (fun _ => false)
    [c9Bookmark] [] _ [] successOracle (List.Perm.refl _) _ (by decide)

end ActivityStream
